import Mathlib

/-
  Verification development for note_renumber.py, a routine that renumbers
  the endnotes of a Standard Ebooks project in content order.

  Shallow embedding conventions:
  * A link element (an `a` tag) is a record of the attributes the program
    reads and writes: `epub:type`, `href`, `id`, its visible string, and a
    flag recording that `clear()` removed its children.  `clear()` does not
    remove the element itself, nor its attributes.
  * A body file is represented by its list of link elements in document
    order; that is all `process_file` inspects (`soup.find_all("a")`).  A
    file that cannot be opened yields empty text, hence no link elements,
    modelled as `none`.
  * The endnotes document is represented by the items of its single `ol`
    container; a list item carries its `id` attribute, `epub:type`, and its
    child nodes.  A child node (fragment) is either a text node or a tag
    carrying its descendant link elements in document order.
  * The global counters (`current_note_number`, `notes_changed`) are
    threaded explicitly through the state records.
-/

namespace NR

structure Link where
  epub_type : String := ""
  href : String := ""
  id_attr : String := ""
  text : String := ""
  cleared : Bool := false
deriving DecidableEq, Repr

inductive Fragment where
  | text (s : String)
  | tag (label : String) (links : List Link)
deriving DecidableEq, Repr

/-- The `ListNote` class of the program, with its per-instance defaults. -/
structure ListNote where
  number : Nat := 0
  anchor : String := ""
  contents : List Fragment := []
  back_link : String := ""
  source_file : String := ""
  matched : Bool := false
deriving DecidableEq, Repr

/-- A list item of the endnotes `ol`: `id` attribute (empty when absent),
`epub:type` attribute, and child nodes. -/
structure Li where
  id_attr : String := ""
  epub_type : String := ""
  contents : List Fragment := []
deriving DecidableEq, Repr

/-- The characters after the first hash, or `none` when there is none. -/
def after_hash : List Char → Option (List Char)
  | [] => none
  | c :: cs => if c = '#' then some cs else after_hash cs

/-- `extract_anchor`: the characters after the first hash of a URL, or the
empty string when there is no hash (`find` returns -1, so the test
`hash_position > 0` succeeds exactly when a hash is present). -/
def extract_anchor (href : String) : String :=
  match after_hash href.data with
  | some cs => String.mk cs
  | none => ""

/-- `old_anchor` as computed per link: empty when the link has no `href`,
otherwise the fragment of the `href`. -/
def link_old_anchor (link : Link) : String :=
  if link.href = "" then "" else extract_anchor link.href

/-- The anchor derived from the running counter, `note-N`. -/
def note_name (c : Nat) : String := "note-" ++ toString c

/-- Step 3 of the scan: rewrite the link target to the endnotes document
with the new anchor, rewrite its `id` to `noteref-N`, and replace its
visible text with the counter value. -/
def rewritten_link (link : Link) (c : Nat) : Link :=
  { link with
    href := "endnotes.xhtml#" ++ note_name c
    id_attr := "noteref-" ++ toString c
    text := toString c }

/-- `link.clear()`: removes the children of the element; the element and
its attributes remain. -/
def clear_link (l : Link) : Link := { l with text := "", cleared := true }

/-- Mutation applied to the unique matching note in the body pass. -/
def body_assign (file_name : String) (c : Nat) (x : ListNote) : ListNote :=
  { x with number := c, matched := true, source_file := file_name }

/-- Mutation applied to the unique matching note in the endnotes pass: it
additionally rewrites the anchor of the matched note to its new value. -/
def endnote_assign (c : Nat) (new_anchor : String) (x : ListNote) : ListNote :=
  { x with number := c, matched := true, source_file := "endnotes.xhtml", anchor := new_anchor }

/-- The program mutates `cands[0]`, the unique note whose anchor equals
`old_anchor`; with exactly one match this equals mapping the update over
all anchor-equal notes, which is how the callers use it. -/
def assign_note (old_anchor : String) (g : ListNote → ListNote)
    (notes : List ListNote) : List ListNote :=
  notes.map (fun x => if x.anchor == old_anchor then g x else x)

/-- State carried through the body-file scan of `process_file`. -/
structure BodyStep where
  link : Link
  endnotes : List ListNote
  counter : Nat
  changed : Nat
  dirty : Bool
deriving DecidableEq, Repr

/-- One `noteref` link of a body file: rewrite when the derived anchor
differs, then attempt correlation, then increment the counter. -/
def body_noteref (de_orphan : Bool) (file_name : String)
    (endnotes : List ListNote) (counter changed : Nat) (dirty : Bool)
    (link : Link) : BodyStep :=
  let old_anchor := link_old_anchor link
  let link1 := if note_name counter = old_anchor then link else rewritten_link link counter
  let changed1 := if note_name counter = old_anchor then changed else changed + 1
  let dirty1 := if note_name counter = old_anchor then dirty else true
  let cands := endnotes.filter (fun x => x.anchor == old_anchor)
  if cands.length = 0 then
    if de_orphan then
      { link := clear_link link1, endnotes := endnotes, counter := counter + 1,
        changed := changed1, dirty := true }
    else
      { link := link1, endnotes := endnotes, counter := counter + 1,
        changed := changed1, dirty := dirty1 }
  else if 1 < cands.length then
    { link := link1, endnotes := endnotes, counter := counter + 1,
      changed := changed1, dirty := dirty1 }
  else
    { link := link1,
      endnotes := assign_note old_anchor (body_assign file_name counter) endnotes,
      counter := counter + 1, changed := changed1, dirty := dirty1 }

/-- One link of a body file; links that are not `noteref` are skipped. -/
def process_link_body (de_orphan : Bool) (file_name : String)
    (endnotes : List ListNote) (counter changed : Nat) (dirty : Bool)
    (link : Link) : BodyStep :=
  if link.epub_type = "noteref" then
    body_noteref de_orphan file_name endnotes counter changed dirty link
  else
    { link := link, endnotes := endnotes, counter := counter,
      changed := changed, dirty := dirty }

/-- Result of `process_file`: the (possibly rewritten) link elements of the
file, the shared note collection, both counters and the dirty flag. -/
structure FileResult where
  links : List Link
  endnotes : List ListNote
  counter : Nat
  changed : Nat
  dirty : Bool
deriving DecidableEq, Repr

def process_links_body (de_orphan : Bool) (file_name : String) :
    List Link → List ListNote → Nat → Nat → Bool → FileResult
  | [], endnotes, counter, changed, dirty =>
      { links := [], endnotes := endnotes, counter := counter,
        changed := changed, dirty := dirty }
  | l :: ls, endnotes, counter, changed, dirty =>
      let s := process_link_body de_orphan file_name endnotes counter changed dirty l
      let r := process_links_body de_orphan file_name ls s.endnotes s.counter s.changed s.dirty
      { r with links := s.link :: r.links }

/-- `gethtml` plus parsing: a file that cannot be opened yields empty text,
hence a document with no link elements. -/
def doc_links : Option (List Link) → List Link
  | none => []
  | some ls => ls

/-- `process_file`: scans all links of one body file in document order. -/
def process_file (de_orphan : Bool) (file : Option (List Link)) (file_name : String)
    (endnotes : List ListNote) (counter changed : Nat) : FileResult :=
  process_links_body de_orphan file_name (doc_links file) endnotes counter changed false

def fragment_links : Fragment → List Link
  | .text _ => []
  | .tag _ ls => ls

def set_fragment_link (f : Fragment) (k : Nat) (l : Link) : Fragment :=
  match f with
  | .text s => .text s
  | .tag lbl ls => .tag lbl (ls.set k l)

def set_note_link (n : ListNote) (j k : Nat) (l : Link) : ListNote :=
  { n with contents :=
      match n.contents.get? j with
      | none => n.contents
      | some f => n.contents.set j (set_fragment_link f k l) }

/-- Addresses of all links nested inside note contents: note index,
fragment index, link index, in traversal order.  Only tag fragments hold
links.  No pass adds or removes notes, fragments or links, so the address
space is fixed over the endnotes pass. -/
def note_triples (notes : List ListNote) : List (Nat × Nat × Nat) :=
  notes.enum.flatMap (fun p =>
    p.2.contents.enum.flatMap (fun q =>
      (List.range (fragment_links q.2).length).map (fun k => (p.1, q.1, k))))

def get_note_link (notes : List ListNote) (t : Nat × Nat × Nat) : Option Link :=
  match notes.get? t.1 with
  | none => none
  | some n =>
    match n.contents.get? t.2.1 with
    | none => none
    | some f => (fragment_links f).get? t.2.2

def write_note_link (notes : List ListNote) (t : Nat × Nat × Nat) (l : Link) :
    List ListNote :=
  match notes.get? t.1 with
  | none => notes
  | some n => notes.set t.1 (set_note_link n t.2.1 t.2.2 l)

/-- State of the endnotes self-reference pass. -/
structure EndState where
  endnotes : List ListNote
  counter : Nat
  changed : Nat
deriving DecidableEq, Repr

/-- The branch of the endnotes pass taken when the derived anchor differs
from the old anchor: rewrite the link, then attempt correlation, then
increment the counter.  In the source this whole sequence, including the
increment, sits inside the inequality test. -/
def endnote_rewrite (de_orphan : Bool) (st : EndState) (t : Nat × Nat × Nat)
    (link : Link) : EndState :=
  let old_anchor := link_old_anchor link
  let link1 := rewritten_link link st.counter
  let notes1 := write_note_link st.endnotes t link1
  let cands := notes1.filter (fun x => x.anchor == old_anchor)
  let notes2 :=
    if cands.length = 0 then
      (if de_orphan then write_note_link notes1 t (clear_link link1) else notes1)
    else if 1 < cands.length then notes1
    else assign_note old_anchor (endnote_assign st.counter (note_name st.counter)) notes1
  { endnotes := notes2, counter := st.counter + 1, changed := st.changed + 1 }

/-- One nested link of the endnotes pass.  When the old anchor already
equals the derived new anchor the source skips the rewrite, the match
attempt and the counter increment alike. -/
def process_endnote_link (de_orphan : Bool) (st : EndState)
    (t : Nat × Nat × Nat) : EndState :=
  match get_note_link st.endnotes t with
  | none => st
  | some link =>
    if link.epub_type = "noteref" then
      if note_name st.counter = link_old_anchor link then st
      else endnote_rewrite de_orphan st t link
    else st

/-- `process_endnotes_file`: scans every note body for nested note links. -/
def process_endnotes_file (de_orphan : Bool) (st : EndState) : EndState :=
  (note_triples st.endnotes).foldl (process_endnote_link de_orphan) st

/-- The back-link accumulation of `get_notes`: every link whose
`epub:type` equals `se:referrer` or `backlink` and whose `href` is
nonempty overwrites the value seen so far. -/
def note_back_link_fold (bl : String) (f : Fragment) : String :=
  (fragment_links f).foldl
    (fun acc l =>
      if l.epub_type = "se:referrer" ∨ l.epub_type = "backlink" then
        (if l.href ≠ "" then l.href else acc)
      else acc) bl

/-- `get_notes`: one `ListNote` per list item of the endnotes `ol`. -/
def get_notes (doc : List Li) : List ListNote :=
  doc.map (fun item =>
    { number := 0
      anchor := item.id_attr
      contents := item.contents
      back_link := item.contents.foldl note_back_link_fold ""
      source_file := ""
      matched := false })

def isPrefixB : List Char → List Char → Bool
  | [], _ => true
  | _ :: _, [] => false
  | a :: as, b :: bs => a == b && isPrefixB as bs

def isInfixB (n : List Char) (h : List Char) : Bool :=
  isPrefixB n h ||
    (match h with
     | [] => false
     | _ :: t => isInfixB n t)

/-- Substring containment, the semantics of the `in` tests of `recreate`. -/
def str_contains (hay needle : String) : Bool :=
  isInfixB needle.toList hay.toList

/-- Whether a link is a return-to-text link in `recreate`: its `epub:type`
contains `se:referrer` or contains `backlink` as a substring. -/
def is_back_ref (l : Link) : Bool :=
  str_contains l.epub_type "se:referrer" || str_contains l.epub_type "backlink"

/-- `recreate` rewrites the target of every return-to-text link with a
nonempty `href` to the matched source file and new marker id. -/
def rewrite_back_link (source_file : String) (number : Nat) (l : Link) : Link :=
  if is_back_ref l then
    (if l.href ≠ "" then { l with href := source_file ++ "#noteref-" ++ toString number } else l)
  else l

def rewrite_fragment (source_file : String) (number : Nat) : Fragment → Fragment
  | .text s => .text s
  | .tag lbl ls => .tag lbl (ls.map (rewrite_back_link source_file number))

/-- The list item `recreate` emits for one matched note. -/
def note_to_li (n : ListNote) : Li :=
  { id_attr := "note-" ++ toString n.number
    epub_type := "endnote"
    contents := n.contents.map (rewrite_fragment n.source_file n.number) }

/-- Stable insertion by `number`; `endnotes.sort` in the source is stable
and compares the `number` key. -/
def insertNote (a : ListNote) : List ListNote → List ListNote
  | [] => [a]
  | b :: l => if a.number ≤ b.number then a :: b :: l else b :: insertNote a l

def sortNotes : List ListNote → List ListNote
  | [] => []
  | a :: l => insertNote a (sortNotes l)

/-- `recreate`: sort by `number`, emit the matched notes in order. -/
def recreate (endnotes : List ListNote) : List Li :=
  (sortNotes endnotes).foldl
    (fun acc n => if n.matched then acc ++ [note_to_li n] else acc) []

def exclude_list : List String :=
  ["titlepage.xhtml", "colophon.xhtml", "uncopyright.xhtml", "imprint.xhtml",
   "halftitle.xhtml", "endnotes.xhtml"]

/-- The projects file system, restricted to body files: a file name maps
to `some` content when it can be opened and to `none` when it cannot. -/
def fs_read (files : List (String × Option (List Link))) (name : String) :
    Option (List Link) :=
  match files.lookup name with
  | some (some d) => some d
  | _ => none

def fs_write (files : List (String × Option (List Link))) (name : String)
    (d : List Link) : List (String × Option (List Link)) :=
  files.map (fun p => if p.1 == name then (p.1, some d) else p)

/-- State of the main loop over the spine. -/
structure MainState where
  files : List (String × Option (List Link))
  endnotes : List ListNote
  counter : Nat
  changed : Nat
  processed : Nat
deriving DecidableEq, Repr

/-- The loop of `main` over the spine: skip excluded names, process each
remaining file, write it back when dirty. -/
def main_files (de_orphan : Bool) : List String → MainState → MainState
  | [], st => st
  | name :: rest, st =>
    if name ∈ exclude_list then main_files de_orphan rest st
    else
      let r := process_file de_orphan (fs_read st.files name) name st.endnotes
        st.counter st.changed
      main_files de_orphan rest
        { files := if r.dirty then fs_write st.files name r.links else st.files
          endnotes := r.endnotes
          counter := r.counter
          changed := r.changed
          processed := st.processed + 1 }

/-- A Standard Ebooks project as the program sees it: the spine order, the
body files, and the items of the endnotes document. -/
structure Project where
  spine : List String
  files : List (String × Option (List Link))
  notes_doc : List Li
deriving DecidableEq, Repr

def run_body (p : Project) (de_orphan : Bool) : MainState :=
  main_files de_orphan p.spine
    { files := p.files, endnotes := get_notes p.notes_doc,
      counter := 1, changed := 0, processed := 0 }

def run_notes_pass (p : Project) (de_orphan : Bool) : EndState :=
  let st := run_body p de_orphan
  process_endnotes_file de_orphan
    { endnotes := st.endnotes, counter := st.counter, changed := st.changed }

structure RunResult where
  files : List (String × Option (List Link))
  notes_doc : List Li
  endnotes : List ListNote
  counter : Nat
  changed : Nat
  processed : Nat
  wrote_notes : Bool
deriving DecidableEq, Repr

/-- One whole run of `main` (after the fatal setup checks): body pass over
the spine, self-reference pass, then the endnotes document is rebuilt only
when files were processed and the change counter is nonzero. -/
def run_main (p : Project) (de_orphan : Bool) : RunResult :=
  let st := run_body p de_orphan
  let e := run_notes_pass p de_orphan
  let wrote : Bool := if st.processed = 0 then false else decide (0 < e.changed)
  { files := st.files
    notes_doc := if wrote then recreate e.endnotes else p.notes_doc
    endnotes := e.endnotes
    counter := e.counter
    changed := e.changed
    processed := st.processed
    wrote_notes := wrote }

/-- A link qualifies for the `back_link` of `get_notes`: its role equals
`se:referrer` or `backlink` and its target is nonempty. -/
def back_q (l : Link) : Bool :=
  (l.epub_type == "se:referrer" || l.epub_type == "backlink") && l.href != ""

/-- The href of the last return-to-text link with a nonempty target among
the contents, in traversal order (empty string when there is none).  This
is the specification-side description of the `back_link` computation of
`get_notes`, stated independently of its accumulator loop. -/
def last_return_link_href (contents : List Fragment) : String :=
  (((contents.flatMap fragment_links).filter back_q).map
    (fun l => l.href)).getLast?.getD ""

/- Concrete documents and projects used by counterexamples and witnesses. -/

/-- A body marker pointing at anchor `x`. -/
def c1_link : Link := { epub_type := "noteref", href := "#x" }

/-- A single endnote with anchor `x`. -/
def c1_note : ListNote := { anchor := "x" }

/-- An endnote with anchor `x` that is already matched with number 5. -/
def c1w_note : ListNote :=
  { anchor := "x", number := 5, matched := true, source_file := "old.xhtml" }

/-- An endnote with anchor `x`, already matched with number 2, whose body
holds a nested marker pointing at `x` (a self-reference to itself). -/
def c1e_note : ListNote :=
  { anchor := "x", number := 2, matched := true, source_file := "ch.xhtml",
    contents := [Fragment.tag "p" [c1_link]] }

/-- A self-reference-pass state over the single note `c1e_note`. -/
def c1_state : EndState :=
  { endnotes := [c1e_note], counter := 9, changed := 0 }

/-- A nested marker whose old anchor is already `note-1`. -/
def c2_link : Link := { epub_type := "noteref", href := "#note-1" }

/-- An endnote with anchor `note-1` whose body contains `c2_link`. -/
def c2_note : ListNote :=
  { anchor := "note-1", contents := [Fragment.tag "p" [c2_link]] }

/-- A body marker whose anchor `zzz` matches no endnote. -/
def c4_link : Link := { epub_type := "noteref", href := "#zzz" }

/-- Two return-to-text links with distinct targets in one list item. -/
def c5_la : Link := { epub_type := "se:referrer", href := "one" }

def c5_lb : Link := { epub_type := "backlink", href := "two" }

def c5_li : Li :=
  { id_attr := "n1", epub_type := "",
    contents := [Fragment.tag "p" [c5_la, c5_lb]] }

def c8_b1 : Link := { epub_type := "noteref", href := "#x", text := "9" }

def c8_b2 : Link := { epub_type := "noteref", href := "#y", text := "9" }

def c8_l1 : Link := { epub_type := "noteref", href := "#u", text := "9" }

def c8_l2 : Link := { epub_type := "noteref", href := "#v", text := "9" }

/-- A project with one body file holding two markers, and four endnotes of
which the first two each hold one nested self-reference marker.  Every
marker has a unique matching endnote: a well-formed input. -/
def p8 : Project :=
  { spine := ["ch.xhtml"]
    files := [("ch.xhtml", some [c8_b1, c8_b2])]
    notes_doc :=
      [ { id_attr := "x", epub_type := "endnote",
          contents := [Fragment.tag "p" [c8_l1], Fragment.text "x body"] },
        { id_attr := "y", epub_type := "endnote",
          contents := [Fragment.tag "p" [c8_l2]] },
        { id_attr := "u", epub_type := "endnote",
          contents := [Fragment.text "u body"] },
        { id_attr := "v", epub_type := "endnote",
          contents := [Fragment.text "v body"] } ] }

/-- The documents produced by the first run on `p8`. -/
def p8_second : Project :=
  { spine := p8.spine, files := (run_main p8 false).files,
    notes_doc := (run_main p8 false).notes_doc }

/-- A project with two body markers and two matching endnotes. -/
def proj_w : Project :=
  { spine := ["w.xhtml"]
    files := [("w.xhtml", some [ { epub_type := "noteref", href := "#p" },
                                 { epub_type := "noteref", href := "#q" } ])]
    notes_doc := [ { id_attr := "p", contents := [Fragment.text "P"] },
                   { id_attr := "q", contents := [Fragment.text "Q"] } ] }

/-- A project with one processable body file and no markers at all. -/
def proj_c7 : Project :=
  { spine := ["ch.xhtml"], files := [("ch.xhtml", some [])], notes_doc := [] }

/-- An empty main-loop state whose file system holds no files. -/
def c9_state : MainState :=
  { files := [], endnotes := [], counter := 1, changed := 0, processed := 0 }

/-- Two notes never share a number when both are matched. -/
def nrel (a b : ListNote) : Prop :=
  a.matched = true → b.matched = true → a.number ≠ b.number

/-- The numbering invariant maintained by both passes: matched notes carry
pairwise distinct numbers, all strictly below the running counter. -/
def NInv (notes : List ListNote) (c : Nat) : Prop :=
  notes.Pairwise nrel ∧ ∀ a ∈ notes, a.matched = true → a.number < c

/- ===================== Theorems ===================== -/

/-- Claim C1, counterexample: with two body markers carrying the same old
anchor `x` and a single endnote with anchor `x`, the first marker matches
the note and assigns it number 1; at the second marker the candidate
filter again selects the note although it is already matched, and the note
is re-assigned number 2.  The claim says a matched note is never selected
again or re-assigned. -/
theorem C1_counterexample :
    ((process_file false (some [c1_link]) "ch.xhtml" [c1_note] 1 0).endnotes.map
        (fun n => (n.number, n.matched)) = [(1, true)]) ∧
    (((process_file false (some [c1_link]) "ch.xhtml" [c1_note] 1 0).endnotes.filter
        (fun x => x.anchor == link_old_anchor c1_link)).map
        (fun n => n.matched) = [true]) ∧
    ((process_file false (some [c1_link, c1_link]) "ch.xhtml" [c1_note] 1 0).endnotes.map
        (fun n => (n.number, n.matched)) = [(2, true)]) := by
  decide

/-- Claim C2: in the self-reference pass the source skips the counter
increment, and with it the whole match/orphan sequence, whenever the old
anchor already equals the derived new anchor; the body pass increments the
counter and attempts the match on the same input.  Evaluated at a nested
marker with old anchor `note-1` while the counter is 1: the self-reference
pass leaves the state (counter included) unchanged and the note unmatched,
while the body pass returns counter 2 and matches the note. -/
theorem C2_self_reference_skips_increment :
    (process_endnotes_file false { endnotes := [c2_note], counter := 1, changed := 0 }) =
      { endnotes := [c2_note], counter := 1, changed := 0 } ∧
    (process_file false (some [c2_link]) "ch.xhtml" [c2_note] 1 0).counter = 2 ∧
    (process_file false (some [c2_link]) "ch.xhtml" [c2_note] 1 0).endnotes.map
      (fun n => n.matched) = [true] := by
  decide

/-- Claim C4, counterexample: under orphan policy remove, a marker whose
anchor matches no note is cleared but not removed: the output document
still contains the link element, with its rewritten target and identifier
attributes intact and only its children gone.  The claim says the marker
is absent from its owning document. -/
theorem C4_counterexample :
    (process_file true (some [c4_link]) "ch.xhtml" [c1_note] 1 0).links =
      [{ epub_type := "noteref", href := "endnotes.xhtml#note-1",
         id_attr := "noteref-1", text := "", cleared := true }] ∧
    (process_file true (some [c4_link]) "ch.xhtml" [c1_note] 1 0).links.length = 1 := by
  decide

theorem lem_step_link_epub (de : Bool) (fn : String) (notes : List ListNote)
    (c ch : Nat) (d : Bool) (link : Link) :
    (process_link_body de fn notes c ch d link).link.epub_type = link.epub_type := by
  simp only [process_link_body, body_noteref, clear_link, rewritten_link]
  repeat' split
  all_goals rfl

theorem lem_links_epub (de : Bool) (fn : String) : ∀ (links : List Link)
    (notes : List ListNote) (c ch : Nat) (d : Bool),
    (process_links_body de fn links notes c ch d).links.map (fun l => l.epub_type) =
      links.map (fun l => l.epub_type) := by
  intro links
  induction links with
  | nil => intro notes c ch d; rfl
  | cons l ls ih =>
    intro notes c ch d
    simp only [process_links_body, List.map_cons]
    rw [ih, lem_step_link_epub]

/-- Claim C4 (amended): `clear()` removes only the children of the orphan
marker; under either orphan policy every link element of the input file is
still present, in place and with its `epub:type` attribute, in the output
file.  Under policy remove, the orphan marker survives with its content
cleared and its target still rewritten, as the counterexample shows. -/
theorem C4_amended_marker_persists (de : Bool) (file : Option (List Link))
    (fn : String) (notes : List ListNote) (c ch : Nat) :
    (process_file de file fn notes c ch).links.map (fun l => l.epub_type) =
      (doc_links file).map (fun l => l.epub_type) ∧
    (process_file de file fn notes c ch).links.length = (doc_links file).length := by
  have h := lem_links_epub de fn (doc_links file) notes c ch false
  refine ⟨h, ?_⟩
  have h2 := congrArg List.length h
  simpa using h2

/-- Claim C5, counterexample: a list item containing two return-to-text
links, with targets `one` then `two` in document order.  The loader keeps
the href of the last qualifying link, `two`; the claim says the href of
the first, `one`. -/
theorem C5_counterexample :
    (get_notes [c5_li]).map (fun n => n.back_link) = ["two"] ∧
    ((c5_li.contents.flatMap fragment_links).filter
        (fun l => l.epub_type == "se:referrer" || l.epub_type == "backlink")).map
      (fun l => l.href) = ["one", "two"] := by
  decide

/-- Claim C8: running the engine a second time on the documents produced
by the first run on `p8` is not idempotent.  The first run renumbers all
four markers (change counter 4) and rebuilds the endnotes.  In the second
run the self-reference pass skips the first nested marker, whose anchor
already equals the derived `note-3`, without incrementing the counter, so
the second nested marker is renumbered from `note-4` to `note-3`: the
second-run change counter is 1, not 0. -/
theorem C8_second_run_changes :
    (run_main p8 false).changed = 4 ∧ (run_main p8 false).wrote_notes = true ∧
    (run_main p8_second false).changed = 1 := by
  decide

/-- Claim C9: a content file that cannot be opened yields empty text,
hence no markers: `process_file` returns its inputs unchanged (counter,
change count and note collection) with no write, and the main loop
continues with the remaining files, only counting the file as processed. -/
theorem C9_unreadable_file_skipped (de : Bool) (fn : String)
    (notes : List ListNote) (c ch : Nat) (rest : List String) (st : MainState)
    (hex : fn ∉ exclude_list) (hur : fs_read st.files fn = none) :
    process_file de none fn notes c ch =
      { links := [], endnotes := notes, counter := c, changed := ch, dirty := false } ∧
    main_files de (fn :: rest) st =
      main_files de rest { st with processed := st.processed + 1 } := by
  constructor
  · rfl
  · simp only [main_files, hex, if_false, hur]
    rfl

/-- Witness for C9 at a concrete state whose file system cannot open the
spine file `ghost.xhtml`. -/
theorem C9_unreadable_file_skipped_witness :
    process_file false none "ghost.xhtml" [] 1 0 =
      { links := [], endnotes := [], counter := 1, changed := 0, dirty := false } ∧
    main_files false ["ghost.xhtml"] c9_state =
      main_files false [] { c9_state with processed := c9_state.processed + 1 } :=
  C9_unreadable_file_skipped false "ghost.xhtml" [] 1 0 [] c9_state (by decide) rfl

/-- Claim C7: the endnotes document is rewritten only when the global
change counter is nonzero after all passes; when the counter is zero no
write occurs. -/
theorem C7_rebuild_gated (p : Project) (de : Bool) :
    ((run_main p de).changed = 0 → (run_main p de).wrote_notes = false) ∧
    ((run_main p de).wrote_notes = true → (run_main p de).changed ≠ 0) := by
  have hc : (run_main p de).changed = (run_notes_pass p de).changed := rfl
  have hw : (run_main p de).wrote_notes =
      (if (run_body p de).processed = 0 then false
       else decide (0 < (run_notes_pass p de).changed)) := rfl
  constructor
  · intro h
    rw [hc] at h
    rw [hw, h]
    split <;> simp
  · intro h h0
    rw [hc] at h0
    rw [hw, h0] at h
    revert h
    split <;> simp

/-- Witness for C7: a run that processes one file, finds no markers and
leaves the change counter at zero does not rewrite the endnotes. -/
theorem C7_rebuild_gated_witness : (run_main proj_c7 false).wrote_notes = false :=
  (C7_rebuild_gated proj_c7 false).1 (by decide)

theorem lem_assign_frame (old : String) (fn : String) (c : Nat)
    (notes : List ListNote) :
    (assign_note old (body_assign fn c) notes).map
        (fun n => (n.anchor, n.contents, n.back_link)) =
      notes.map (fun n => (n.anchor, n.contents, n.back_link)) := by
  unfold assign_note body_assign
  rw [List.map_map]
  apply List.map_congr_left
  intro a ha
  simp only [Function.comp_apply]
  split <;> rfl

theorem lem_step_frame (de : Bool) (fn : String) (notes : List ListNote)
    (c ch : Nat) (d : Bool) (link : Link) :
    (process_link_body de fn notes c ch d link).endnotes.map
        (fun n => (n.anchor, n.contents, n.back_link)) =
      notes.map (fun n => (n.anchor, n.contents, n.back_link)) := by
  simp only [process_link_body, body_noteref]
  repeat' split
  all_goals first
    | rfl
    | exact lem_assign_frame (link_old_anchor link) fn c notes

theorem lem_links_frame (de : Bool) (fn : String) : ∀ (links : List Link)
    (notes : List ListNote) (c ch : Nat) (d : Bool),
    (process_links_body de fn links notes c ch d).endnotes.map
        (fun n => (n.anchor, n.contents, n.back_link)) =
      notes.map (fun n => (n.anchor, n.contents, n.back_link)) := by
  intro links
  induction links with
  | nil => intro notes c ch d; rfl
  | cons l ls ih =>
    intro notes c ch d
    simp only [process_links_body]
    rw [ih, lem_step_frame]

/-- Claim C10: the body pass never modifies the `anchor`, `contents` or
`back_link` of any note in the shared collection: the projection of the
collection to these three fields is unchanged by `process_file`, for any
file content, orphan policy and counter state.  Since a note has only the
six fields, the pass can touch only `number`, `matched` and `source_file`,
and those are written only in the unique-match branch. -/
theorem C10_body_pass_frame (de : Bool) (file : Option (List Link))
    (fn : String) (notes : List ListNote) (c ch : Nat) :
    (process_file de file fn notes c ch).endnotes.map
        (fun n => (n.anchor, n.contents, n.back_link)) =
      notes.map (fun n => (n.anchor, n.contents, n.back_link)) :=
  lem_links_frame de fn (doc_links file) notes c ch false

theorem lem_insert_perm (a : ListNote) (l : List ListNote) :
    List.Perm (insertNote a l) (a :: l) := by
  induction l with
  | nil => simp [insertNote]
  | cons b t ih =>
    simp only [insertNote]
    split
    · exact List.Perm.refl _
    · exact (ih.cons b).trans (List.Perm.swap a b t)

theorem lem_sort_perm (l : List ListNote) : List.Perm (sortNotes l) l := by
  induction l with
  | nil => exact List.Perm.refl _
  | cons a t ih =>
    simp only [sortNotes]
    exact (lem_insert_perm a (sortNotes t)).trans (ih.cons a)

theorem lem_insert_sorted (a : ListNote) (l : List ListNote)
    (h : l.Pairwise (fun x y => x.number ≤ y.number)) :
    (insertNote a l).Pairwise (fun x y => x.number ≤ y.number) := by
  induction l with
  | nil => simp [insertNote]
  | cons b t ih =>
    rw [List.pairwise_cons] at h
    obtain ⟨hb, ht⟩ := h
    simp only [insertNote]
    split
    · rename_i hab
      rw [List.pairwise_cons]
      refine ⟨?_, List.pairwise_cons.mpr ⟨hb, ht⟩⟩
      intro y hy
      rcases List.mem_cons.mp hy with rfl | hy2
      · exact hab
      · exact le_trans hab (hb y hy2)
    · rename_i hab
      rw [List.pairwise_cons]
      refine ⟨?_, ih ht⟩
      intro y hy
      have hmem := (lem_insert_perm a t).mem_iff.mp hy
      rcases List.mem_cons.mp hmem with rfl | hy2
      · omega
      · exact hb y hy2

theorem lem_sort_sorted (l : List ListNote) :
    (sortNotes l).Pairwise (fun x y => x.number ≤ y.number) := by
  induction l with
  | nil => simp [sortNotes]
  | cons a t ih => exact lem_insert_sorted a _ ih

theorem lem_recreate_fold (l : List ListNote) : ∀ acc : List Li,
    l.foldl (fun acc n => if n.matched then acc ++ [note_to_li n] else acc) acc =
      acc ++ (l.filter (fun n => n.matched)).map note_to_li := by
  induction l with
  | nil => intro acc; simp
  | cons a t ih =>
    intro acc
    simp only [List.foldl_cons]
    rw [ih]
    by_cases h : a.matched = true
    · simp [List.filter_cons, h, List.append_assoc]
    · simp [List.filter_cons, h]

/-- Claim C6: the rebuilt definition list consists of exactly the matched
notes (as a multiset), arranged in ascending order of `number`, each
emitted by `note_to_li`: a list item with identifier `note-N` and role
`endnote` whose content fragments have every return-to-text link with a
nonempty target rewritten to `source_file#noteref-N`.  Unmatched notes are
omitted. -/
theorem C6_rebuild_matched_sorted (endnotes : List ListNote) :
    ∃ ms : List ListNote,
      List.Perm ms (endnotes.filter (fun n => n.matched)) ∧
      ms.Pairwise (fun a b => a.number ≤ b.number) ∧
      recreate endnotes = ms.map note_to_li := by
  refine ⟨(sortNotes endnotes).filter (fun n => n.matched), ?_, ?_, ?_⟩
  · exact (lem_sort_perm endnotes).filter _
  · exact List.Pairwise.sublist (List.filter_sublist _) (lem_sort_sorted endnotes)
  · unfold recreate
    rw [lem_recreate_fold]
    simp

theorem lem_getLast_getD_cons : ∀ (xs : List String) (x d : String),
    (x :: xs).getLast?.getD d = xs.getLast?.getD x := by
  intro xs
  induction xs with
  | nil => intro x d; rfl
  | cons y ys ih =>
    intro x d
    rw [List.getLast?_cons_cons, ih y d, ih y x]

theorem lem_getLast_getD_append : ∀ (l1 l2 : List String) (d : String),
    (l1 ++ l2).getLast?.getD d = l2.getLast?.getD (l1.getLast?.getD d) := by
  intro l1
  induction l1 with
  | nil => intro l2 d; rfl
  | cons x xs ih =>
    intro l2 d
    rw [List.cons_append, lem_getLast_getD_cons (xs ++ l2) x d, ih,
      lem_getLast_getD_cons xs x d]

theorem lem_fold_last (ls : List Link) : ∀ bl : String,
    ls.foldl
      (fun acc l =>
        if l.epub_type = "se:referrer" ∨ l.epub_type = "backlink" then
          (if l.href ≠ "" then l.href else acc)
        else acc) bl =
    ((ls.filter back_q).map (fun l => l.href)).getLast?.getD bl := by
  induction ls with
  | nil => intro bl; rfl
  | cons a t ih =>
    intro bl
    rw [List.foldl_cons]
    by_cases h1 : a.epub_type = "se:referrer" ∨ a.epub_type = "backlink"
    · by_cases h2 : a.href = ""
      · have hq : ¬ back_q a = true := by simp [back_q, h2]
        rw [if_pos h1, if_neg (by simp [h2]), List.filter_cons_of_neg hq]
        exact ih bl
      · have hq : back_q a = true := by
          rcases h1 with h | h <;> simp [back_q, h, h2]
        rw [if_pos h1, if_pos h2, List.filter_cons_of_pos hq, List.map_cons,
          lem_getLast_getD_cons]
        exact ih a.href
    · have hq : ¬ back_q a = true := by
        obtain ⟨hA, hB⟩ := not_or.mp h1
        simp [back_q, hA, hB]
      rw [if_neg h1, List.filter_cons_of_neg hq]
      exact ih bl

theorem lem_contents_fold (contents : List Fragment) : ∀ bl : String,
    contents.foldl note_back_link_fold bl =
      (((contents.flatMap fragment_links).filter back_q).map
        (fun l => l.href)).getLast?.getD bl := by
  induction contents with
  | nil => intro bl; rfl
  | cons f t ih =>
    intro bl
    rw [List.foldl_cons]
    have h1 : note_back_link_fold bl f =
        (((fragment_links f).filter back_q).map (fun l => l.href)).getLast?.getD bl :=
      lem_fold_last (fragment_links f) bl
    rw [h1, ih, List.flatMap_cons, List.filter_append, List.map_append,
      lem_getLast_getD_append]

/-- Claim C5 (amended): for each list item the loader builds a note whose
anchor is the identifier attribute of the item (empty when absent), whose
contents are every child node in original order, and whose `back_link` is
the href of the LAST contained return-to-text link with a nonempty target
(roles `se:referrer` and `backlink` accepted), with all other fields at
their defaults. -/
theorem C5_amended_get_notes (doc : List Li) :
    get_notes doc = doc.map (fun item =>
      { number := 0, anchor := item.id_attr, contents := item.contents,
        back_link := last_return_link_href item.contents,
        source_file := "", matched := false }) := by
  unfold get_notes
  apply List.map_congr_left
  intro item hitem
  have hb : item.contents.foldl note_back_link_fold "" =
      last_return_link_href item.contents := by
    rw [lem_contents_fold]
    rfl
  rw [hb]

theorem lem_NInv_mono {notes : List ListNote} {c c2 : Nat}
    (h : NInv notes c) (hc : c ≤ c2) : NInv notes c2 :=
  ⟨h.1, fun a ha hm => lt_of_lt_of_le (h.2 a ha hm) hc⟩

theorem lem_NInv_proj (notes notes2 : List ListNote) (c : Nat)
    (hproj : notes2.map (fun n => (n.number, n.matched)) =
      notes.map (fun n => (n.number, n.matched)))
    (h : NInv notes c) : NInv notes2 c := by
  constructor
  · have h1 : (notes.map (fun n => (n.number, n.matched))).Pairwise
        (fun u v => u.2 = true → v.2 = true → u.1 ≠ v.1) := by
      rw [List.pairwise_map]
      exact h.1
    rw [← hproj, List.pairwise_map] at h1
    exact h1
  · intro a ha hm
    have hmem : (a.number, a.matched) ∈ notes2.map (fun n => (n.number, n.matched)) :=
      List.mem_map_of_mem _ ha
    rw [hproj] at hmem
    obtain ⟨b, hbmem, hba⟩ := List.mem_map.mp hmem
    have h1 : b.number = a.number := congrArg Prod.fst hba
    have h2 : b.matched = a.matched := congrArg Prod.snd hba
    rw [← h1]
    exact h.2 b hbmem (by rw [h2, hm])

theorem lem_decompose (p : ListNote → Bool) : ∀ (l : List ListNote),
    (l.filter p).length = 1 →
    ∃ l1 x l2, l = l1 ++ x :: l2 ∧ p x = true ∧
      (∀ y ∈ l1, p y = false) ∧ (∀ y ∈ l2, p y = false) := by
  intro l
  induction l with
  | nil => intro h; simp at h
  | cons a t ih =>
    intro h
    by_cases hp : p a = true
    · rw [List.filter_cons_of_pos hp] at h
      have h0 : (t.filter p).length = 0 := by simpa using h
      have hnil : t.filter p = [] := List.length_eq_zero.mp h0
      refine ⟨[], a, t, by simp, hp, by simp, ?_⟩
      intro y hy
      have := List.filter_eq_nil_iff.mp hnil y hy
      simpa using this
    · rw [List.filter_cons_of_neg hp] at h
      obtain ⟨l1, x, l2, hl, hx, h1, h2⟩ := ih h
      refine ⟨a :: l1, x, l2, by simp [hl], hx, ?_, h2⟩
      intro y hy
      rcases List.mem_cons.mp hy with rfl | hy2
      · simpa using hp
      · exact h1 y hy2

theorem lem_assign_NInv (old : String) (g : ListNote → ListNote) (c : Nat)
    (hgn : ∀ x, (g x).number = c) (notes : List ListNote)
    (huniq : (notes.filter (fun x => x.anchor == old)).length = 1)
    (h : NInv notes c) : NInv (assign_note old g notes) (c + 1) := by
  obtain ⟨l1, x, l2, hdec, hx, h1, h2⟩ :=
    lem_decompose (fun x => x.anchor == old) notes huniq
  subst hdec
  have hmap : assign_note old g (l1 ++ x :: l2) = l1 ++ g x :: l2 := by
    unfold assign_note
    rw [List.map_append, List.map_cons]
    congr 1
    · have hid : ∀ y ∈ l1, (if y.anchor == old then g y else y) = id y :=
        fun y hy => by simp [h1 y hy]
      rw [List.map_congr_left hid, List.map_id]
    · congr 1
      · simp [hx]
      · have hid : ∀ y ∈ l2, (if y.anchor == old then g y else y) = id y :=
          fun y hy => by simp [h2 y hy]
        rw [List.map_congr_left hid, List.map_id]
  rw [hmap]
  obtain ⟨hpw, hbound⟩ := h
  rw [List.pairwise_append] at hpw
  obtain ⟨pw1, pw2, pw12⟩ := hpw
  rw [List.pairwise_cons] at pw2
  obtain ⟨pwx, pwl2⟩ := pw2
  constructor
  · rw [List.pairwise_append, List.pairwise_cons]
    refine ⟨pw1, ⟨?_, pwl2⟩, ?_⟩
    · intro b hbmem hgx hbm
      have hlt : b.number < c := hbound b (by simp [hbmem]) hbm
      rw [hgn x]
      omega
    · intro a ha b hbmem
      rcases List.mem_cons.mp hbmem with rfl | hb2
      · intro ham hgm2
        have hlt : a.number < c := hbound a (by simp [ha]) ham
        rw [hgn x]
        omega
      · exact pw12 a ha b (List.mem_cons_of_mem x hb2)
  · intro a ha ham
    rcases List.mem_append.mp ha with ha1 | ha2
    · have := hbound a (by simp [ha1]) ham
      omega
    · rcases List.mem_cons.mp ha2 with rfl | ha3
      · rw [hgn x]
        omega
      · have := hbound a (by simp [ha3]) ham
        omega

theorem lem_body_step_NInv (de : Bool) (fn : String) (notes : List ListNote)
    (c ch : Nat) (d : Bool) (link : Link) (h : NInv notes c) :
    NInv (process_link_body de fn notes c ch d link).endnotes
      (process_link_body de fn notes c ch d link).counter := by
  by_cases ht : link.epub_type = "noteref"
  · simp only [process_link_body, ht, eq_self_iff_true, if_true, body_noteref]
    split
    · split
      · exact lem_NInv_mono h (Nat.le_succ c)
      · exact lem_NInv_mono h (Nat.le_succ c)
    · split
      · exact lem_NInv_mono h (Nat.le_succ c)
      · rename_i h0 h1
        exact lem_assign_NInv _ _ c (fun x => rfl) notes (by omega) h
  · simp only [process_link_body]
    rw [if_neg ht]
    exact h

theorem lem_map_set {β : Type} (f : ListNote → β) : ∀ (l : List ListNote)
    (i : Nat) (a : ListNote),
    (∀ h : i < l.length, f a = f (l.get ⟨i, h⟩)) →
    (l.set i a).map f = l.map f := by
  intro l
  induction l with
  | nil => intro i a h; rfl
  | cons b t ih =>
    intro i a h
    cases i with
    | zero =>
      have h0 : f a = f b := h (by simp)
      show (a :: t).map f = (b :: t).map f
      simp [List.map_cons, h0]
    | succ i2 =>
      have h2 : ∀ hh : i2 < t.length, f a = f (t.get ⟨i2, hh⟩) :=
        fun hh => h (by simpa using Nat.succ_lt_succ hh)
      show (b :: t.set i2 a).map f = (b :: t).map f
      simp only [List.map_cons]
      rw [ih i2 a h2]

theorem lem_write_proj (notes : List ListNote) (t : Nat × Nat × Nat) (l : Link) :
    (write_note_link notes t l).map (fun n => (n.number, n.matched)) =
      notes.map (fun n => (n.number, n.matched)) := by
  unfold write_note_link
  cases hg : notes.get? t.1 with
  | none => rfl
  | some n =>
    apply lem_map_set
    intro hlt
    have hget : notes.get ⟨t.1, hlt⟩ = n := by
      have h2 := List.get?_eq_get hlt
      rw [hg] at h2
      exact (Option.some_inj.mp h2).symm
    rw [hget]
    rfl

theorem lem_write_anchor (notes : List ListNote) (t : Nat × Nat × Nat) (l : Link) :
    (write_note_link notes t l).map (fun n => n.anchor) =
      notes.map (fun n => n.anchor) := by
  unfold write_note_link
  cases hg : notes.get? t.1 with
  | none => rfl
  | some n =>
    apply lem_map_set
    intro hlt
    have hget : notes.get ⟨t.1, hlt⟩ = n := by
      have h2 := List.get?_eq_get hlt
      rw [hg] at h2
      exact (Option.some_inj.mp h2).symm
    rw [hget]
    rfl

theorem lem_filter_length_anchor (old : String) (l1 l2 : List ListNote)
    (h : l1.map (fun n => n.anchor) = l2.map (fun n => n.anchor)) :
    (l1.filter (fun x => x.anchor == old)).length =
      (l2.filter (fun x => x.anchor == old)).length := by
  have h1 := congrArg (List.countP (fun s => s == old)) h
  rw [List.countP_map, List.countP_map] at h1
  rw [← List.countP_eq_length_filter, ← List.countP_eq_length_filter]
  exact h1

theorem lem_endnote_rewrite_NInv (de : Bool) (st : EndState)
    (t : Nat × Nat × Nat) (link : Link) (h : NInv st.endnotes st.counter) :
    NInv (endnote_rewrite de st t link).endnotes
      (endnote_rewrite de st t link).counter := by
  have h1 : NInv (write_note_link st.endnotes t (rewritten_link link st.counter))
      st.counter :=
    lem_NInv_proj _ _ _ (lem_write_proj _ _ _) h
  simp only [endnote_rewrite]
  split
  · split
    · exact lem_NInv_mono
        (lem_NInv_proj _ _ _ (lem_write_proj _ _ _) h1) (Nat.le_succ _)
    · exact lem_NInv_mono h1 (Nat.le_succ _)
  · split
    · exact lem_NInv_mono h1 (Nat.le_succ _)
    · rename_i h0 hlt1
      exact lem_assign_NInv _ _ st.counter (fun x => rfl) _ (by omega) h1

theorem lem_end_step_NInv (de : Bool) (st : EndState) (t : Nat × Nat × Nat)
    (h : NInv st.endnotes st.counter) :
    NInv (process_endnote_link de st t).endnotes
      (process_endnote_link de st t).counter := by
  unfold process_endnote_link
  split
  · exact h
  · split
    · split
      · exact h
      · exact lem_endnote_rewrite_NInv de st t _ h
    · exact h

theorem lem_end_fold_NInv (de : Bool) : ∀ (ts : List (Nat × Nat × Nat))
    (st : EndState), NInv st.endnotes st.counter →
    NInv ((ts.foldl (process_endnote_link de) st)).endnotes
      ((ts.foldl (process_endnote_link de) st)).counter := by
  intro ts
  induction ts with
  | nil => intro st h; exact h
  | cons t ts ih =>
    intro st h
    rw [List.foldl_cons]
    exact ih _ (lem_end_step_NInv de st t h)

theorem lem_links_NInv (de : Bool) (fn : String) : ∀ (links : List Link)
    (notes : List ListNote) (c ch : Nat) (d : Bool), NInv notes c →
    NInv (process_links_body de fn links notes c ch d).endnotes
      (process_links_body de fn links notes c ch d).counter := by
  intro links
  induction links with
  | nil => intro notes c ch d h; exact h
  | cons l ls ih =>
    intro notes c ch d h
    simp only [process_links_body]
    exact ih _ _ _ _ (lem_body_step_NInv de fn notes c ch d l h)

theorem lem_main_NInv (de : Bool) : ∀ (spine : List String) (st : MainState),
    NInv st.endnotes st.counter →
    NInv (main_files de spine st).endnotes (main_files de spine st).counter := by
  intro spine
  induction spine with
  | nil => intro st h; exact h
  | cons name rest ih =>
    intro st h
    simp only [main_files]
    split
    · exact ih st h
    · exact ih _ (lem_links_NInv de name (doc_links (fs_read st.files name))
        st.endnotes st.counter st.changed false h)

theorem lem_get_notes_NInv (doc : List Li) (c : Nat) : NInv (get_notes doc) c := by
  constructor
  · unfold get_notes
    rw [List.pairwise_map]
    induction doc with
    | nil => exact List.Pairwise.nil
    | cons a t ih =>
      rw [List.pairwise_cons]
      exact ⟨fun b hbmem hm => Bool.noConfusion hm, ih⟩
  · intro a ha hm
    unfold get_notes at ha
    obtain ⟨item, hitem, rfl⟩ := List.mem_map.mp ha
    exact Bool.noConfusion hm

/-- Claim C3: after the body pass over the whole spine and the
self-reference pass, no two distinct notes that are both matched carry the
same number.  (This holds although matched notes can be re-assigned: every
assignment writes the current counter value, which is strictly above every
number held by a matched note, and is immediately followed by the counter
increment.) -/
theorem C3_matched_numbers_distinct (p : Project) (de : Bool) (i j : Nat)
    (a b : ListNote) (hij : i ≠ j)
    (ha : (run_main p de).endnotes.get? i = some a)
    (hb : (run_main p de).endnotes.get? j = some b)
    (hma : a.matched = true) (hmb : b.matched = true) :
    a.number ≠ b.number := by
  have hN : NInv (run_main p de).endnotes (run_main p de).counter := by
    have h0 : NInv (get_notes p.notes_doc) 1 := lem_get_notes_NInv p.notes_doc 1
    have h1 : NInv (run_body p de).endnotes (run_body p de).counter :=
      lem_main_NInv de p.spine _ h0
    exact lem_end_fold_NInv de _ _ h1
  obtain ⟨hil, hia⟩ := List.get?_eq_some.mp ha
  obtain ⟨hjl, hjb⟩ := List.get?_eq_some.mp hb
  have hpw := List.pairwise_iff_get.mp hN.1
  rcases Nat.lt_or_ge i j with hlt | hge
  · have hr := hpw ⟨i, hil⟩ ⟨j, hjl⟩ (by simpa using hlt)
    rw [hia, hjb] at hr
    exact hr hma hmb
  · have hlt2 : j < i := by omega
    have hr := hpw ⟨j, hjl⟩ ⟨i, hil⟩ (by simpa using hlt2)
    rw [hia, hjb] at hr
    exact Ne.symm (hr hmb hma)

/-- Witness for C3: the two matched notes of a concrete run carry the
distinct numbers 1 and 2. -/
theorem C3_matched_numbers_distinct_witness :
    ({ number := 1, anchor := "p", contents := [Fragment.text "P"],
       back_link := "", source_file := "w.xhtml", matched := true } : ListNote).number ≠
    ({ number := 2, anchor := "q", contents := [Fragment.text "Q"],
       back_link := "", source_file := "w.xhtml", matched := true } : ListNote).number :=
  C3_matched_numbers_distinct proj_w false 0 1
    { number := 1, anchor := "p", contents := [Fragment.text "P"],
      back_link := "", source_file := "w.xhtml", matched := true }
    { number := 2, anchor := "q", contents := [Fragment.text "Q"],
      back_link := "", source_file := "w.xhtml", matched := true }
    (by decide) (by decide) (by decide) rfl rfl

/-- Claim C1 (amended): in both passes the Matcher selects candidates by
anchor equality alone, regardless of the `matched` flag.  Whenever exactly
one note of the collection carries the old anchor of a noteref link, that
note is assigned the current counter value, marked matched and given the
current source file, even when it was already matched by an earlier
marker: the body pass rewrites `number`, `matched` and `source_file`; the
self-reference pass rewrites the same fields (with `source_file` the
endnotes document) and additionally overwrites the note's `anchor` with
the marker's new anchor.  (In the self-reference pass the candidate filter
runs on the collection after the marker rewrite has been written into the
note contents, which leaves every anchor unchanged.) -/
theorem C1_amended_matcher (de : Bool) (fn : String) (notes : List ListNote)
    (c ch : Nat) (d : Bool) (link : Link) (st : EndState) (t : Nat × Nat × Nat)
    (ht : link.epub_type = "noteref")
    (huniq : (notes.filter (fun x => x.anchor == link_old_anchor link)).length = 1)
    (huniq2 : (st.endnotes.filter
      (fun x => x.anchor == link_old_anchor link)).length = 1) :
    ((process_link_body de fn notes c ch d link).endnotes =
      notes.map (fun x => if x.anchor == link_old_anchor link then
        { x with number := c, matched := true, source_file := fn } else x)) ∧
    ((endnote_rewrite de st t link).endnotes =
      (write_note_link st.endnotes t (rewritten_link link st.counter)).map
        (fun x => if x.anchor == link_old_anchor link then
          { x with number := st.counter, matched := true, source_file := "endnotes.xhtml", anchor := note_name st.counter }
        else x)) := by
  constructor
  · simp only [process_link_body, body_noteref, ht, if_true, huniq,
      assign_note, body_assign]
    norm_num
  · have hlen : ((write_note_link st.endnotes t
        (rewritten_link link st.counter)).filter
          (fun x => x.anchor == link_old_anchor link)).length = 1 := by
      rw [lem_filter_length_anchor (link_old_anchor link) _ st.endnotes
        (lem_write_anchor _ _ _)]
      exact huniq2
    simp only [endnote_rewrite, hlen, assign_note, endnote_assign]
    norm_num

/-- Witness for the amended C1 theorem.  Body pass: a note already matched
with number 5 is re-assigned number 7 by a later marker carrying its
anchor.  Self-reference pass: a note already matched with number 2 is
re-assigned number 9 by a nested marker carrying its anchor `x`, and its
anchor is overwritten with `note-9`. -/
theorem C1_amended_matcher_witness :
    ((process_link_body false "w2.xhtml" [c1w_note] 7 0 false c1_link).endnotes =
      [{ anchor := "x", number := 7, matched := true, source_file := "w2.xhtml" }]) ∧
    ((endnote_rewrite false c1_state (0, 0, 0) c1_link).endnotes =
      [{ anchor := "note-9", number := 9, matched := true,
         source_file := "endnotes.xhtml", back_link := "",
         contents := [Fragment.tag "p"
           [{ epub_type := "noteref", href := "endnotes.xhtml#note-9",
              id_attr := "noteref-9", text := "9", cleared := false }]] }]) :=
  C1_amended_matcher false "w2.xhtml" [c1w_note] 7 0 false c1_link
    c1_state (0, 0, 0) rfl (by decide) (by decide)

end NR
